import Mathlib

/-!
Shallow embedding of the DHCPv4 wire-format engine of `go-dhcp`
(`pkg/dhcp/dhcpv4/packet.go`, `constants.go`, and the client `Discover`
loop), with theorems settling the frozen claims about the option codec,
the packet framer and the discover driver.

Bytes are modelled as `Nat` values below 256; byte buffers as `List Nat`.
The 1236-byte options array (`dhcpOptionsLenMax = 1500 - 264`) is a list
of exactly 1236 bytes.  Go runtime panics (index / slice out of range)
are modelled as `none` results.
-/

set_option maxRecDepth 8000

namespace Dhcp

/-! ## Constants (`constants.go`) -/

def OptionEnd : Nat := 255
def OptionPad : Nat := 0
def OptionSubnetMask : Nat := 1
def OptionTimeOffset : Nat := 2
def OptionRouters : Nat := 3
def OptionTimeServers : Nat := 4
def OptionNameServers : Nat := 5
def OptionDomainNameServers : Nat := 6
def OptionLogServers : Nat := 7
def OptionCookieServers : Nat := 8
def OptionLPRServers : Nat := 9
def OptionImpressServers : Nat := 10
def OptionResourceLocationServers : Nat := 11
def OptionHostname : Nat := 12
def OptionBootFileSize : Nat := 13
def OptionMeritDumpFile : Nat := 14
def OptionDomainName : Nat := 15
def OptionSwapServer : Nat := 16
def OptionRootPath : Nat := 17
def OptionExtensionsPath : Nat := 18
def OptionIPForwardingEnable : Nat := 19
def OptionSourceRoutingEnable : Nat := 20
def OptionPolicyFilters : Nat := 21
def OptionMaxDatagramAssembly : Nat := 22
def OptionDefaultIPTTL : Nat := 23
def OptionMTUAgingTimeout : Nat := 24
def OptionMTUPlateauTable : Nat := 25
def OptionInterfaceMTU : Nat := 26
def OptionAllSubnetsAreLocal : Nat := 27
def OptionBroadcastAddr : Nat := 28
def OptionMaskDiscoveryEnable : Nat := 29
def OptionMaskSupplier : Nat := 30
def OptionRouterDiscoveryEnable : Nat := 31
def OptionRouterSolicitationAddr : Nat := 32
def OptionStaticRoutes : Nat := 33
def OptionTrailerEncapsulation : Nat := 34
def OptionARPCacheTimeout : Nat := 35
def OptionEthernetEncapsulation : Nat := 36
def OptionTCPDefaultTTL : Nat := 37
def OptionTCPKeepaliveInterval : Nat := 38
def OptionTCPKeepaliveGarbage : Nat := 39
def OptionNISDomain : Nat := 40
def OptionNISServers : Nat := 41
def OptionNTPServers : Nat := 42
def OptionVendorSpecificOptions : Nat := 43
def OptionNetBIOSNameServers : Nat := 44
def OptionNetBIOSDistServers : Nat := 45
def OptionNetBIOSNodeType : Nat := 46
def OptionNetBIOSScope : Nat := 47
def OptionFontServers : Nat := 48
def OptionXDisplayManager : Nat := 49
def OptionRequestedIPAddr : Nat := 50
def OptionIPAddrLeaseTime : Nat := 51
def OptionOverload : Nat := 52
def OptionMessageType : Nat := 53
def OptionServerID : Nat := 54
def OptionParameterList : Nat := 55
def OptionMessage : Nat := 56
def OptionMaxMessageSize : Nat := 57
def OptionRenewalTime : Nat := 58
def OptionRebindingTime : Nat := 59
def OptionClassID : Nat := 60
def OptionClientID : Nat := 61
def OptionNISPlusDomainName : Nat := 64
def OptionNISPlusServers : Nat := 65
def OptionTFTPServerName : Nat := 66
def OptionBootFileName : Nat := 67
def OptionHomeAgentAddrs : Nat := 68
def OptionSMTPServers : Nat := 69
def OptionPOPServers : Nat := 70
def OptionNNTPServers : Nat := 71
def OptionWWWServers : Nat := 72
def OptionFingerServers : Nat := 73
def OptionIRCServers : Nat := 74
def OptionStreetTalkServers : Nat := 75
def OptionSTDAServers : Nat := 76

def MessageTypeDiscover : Nat := 1

/-- the 4-byte DHCP magic cookie `63 82 53 63` (`var dhcpCookie`). -/
def dhcpCookie : List Nat := [0x63, 0x82, 0x53, 0x63]

/-- `dhcpOptionsLenMax = 1500 - dhcpFixedLen = 1500 - 264 = 1236`: the size
of the fixed `Options` array of `Packet`. -/
def OptionsCap : Nat := 1236

/-! ## Byte helpers -/

/-- big-endian bytes of a `uint32` (`binary.BigEndian.PutUint32`). -/
def be32 (v : Nat) : List Nat :=
  [v / 16777216 % 256, v / 65536 % 256, v / 256 % 256, v % 256]

/-- big-endian bytes of a `uint16` (`binary.BigEndian.PutUint16`). -/
def be16 (v : Nat) : List Nat := [v / 256 % 256, v % 256]

/-- `binary.BigEndian.Uint16` of a 2-byte run. -/
def beU16 (bs : List Nat) : Nat := bs.getD 0 0 * 256 + bs.getD 1 0

/-- a Go fixed-size `[n]byte` array value: truncated / zero-padded to
exactly `n` bytes. -/
def fixBytes (n : Nat) (l : List Nat) : List Nat :=
  (l ++ List.replicate n 0).take n

/-! ## The dynamic option values accepted by `SetOptions`

`Options` is `map[uint8]interface{}`; the runtime type switch of
`SetOptions` distinguishes exactly these representations. -/

/-- a runtime-typed option value, one constructor per Go type that some
branch of the `SetOptions` type switch accepts. -/
inductive GoVal where
  | u32 (v : Nat)                                   -- uint32
  | u32s (vs : List Nat)                            -- []uint32
  | ip4s (vs : List (List Nat))                     -- [][4]byte
  | bytes (bs : List Nat)                           -- []byte
  | u32pair (a b : Nat)                             -- [2]uint32
  | u32pairs (vs : List (Nat × Nat))                -- [][2]uint32
  | ip4pairs (vs : List (List Nat × List Nat))      -- [][2][4]byte
  | u16 (v : Nat)                                   -- uint16
  | u16s (vs : List Nat)                            -- []uint16
  | b2s (vs : List (List Nat))                      -- [][2]byte
  | b2 (bs : List Nat)                              -- [2]byte
  | b4 (bs : List Nat)                              -- [4]byte
  | u8 (v : Nat)                                    -- uint8
  | boolean (b : Bool)                              -- bool
  | str (s : List Nat)                              -- string (as bytes)
deriving DecidableEq, Repr

/-- the two error values produced by `SetOptions`. -/
inductive GoErr where
  | invalidValue   -- errors.New("Invalid option value")
  | invalidType    -- errors.New("Invalid option type")
deriving DecidableEq, Repr

/-! ## The encoder (`SetOptions`, packet.go lines 95-504)

`encodeOne code v` returns the bytes the branch for `code` writes AFTER
the option-code byte (the code byte itself is written by the outer loop
before the switch, line 107), paired with the error if the branch
returns one.  On an error return the first component is exactly the
bytes already written when the `return` executes. -/

/-- the write loop of the `[]uint16` case of `OptionMTUPlateauTable`:
each value is checked `≥ 68` before its two bytes are written, so an
error return keeps the values already written. -/
def mtuWriteU16s (acc : List Nat) : List Nat → List Nat × Option GoErr
  | [] => (acc, none)
  | v :: rest =>
    if v < 68 then (acc, some .invalidValue)
    else mtuWriteU16s (acc ++ be16 v) rest

/-- the write loop of the `[][2]byte` case of `OptionMTUPlateauTable`. -/
def mtuWriteB2s (acc : List Nat) : List (List Nat) → List Nat × Option GoErr
  | [] => (acc, none)
  | v :: rest =>
    if beU16 (fixBytes 2 v) < 68 then (acc, some .invalidValue)
    else mtuWriteB2s (acc ++ fixBytes 2 v) rest

/-- one iteration body of the `SetOptions` option loop: the bytes written
after the code byte, and the error if the branch fails. -/
def encodeOne (code : Nat) (v : GoVal) : List Nat × Option GoErr :=
  -- uint32 / [1-4]uint32 / [(1+n*4)-32]byte / [1-4][4]byte
  if code ∈ [OptionRouters, OptionTimeServers, OptionNameServers,
      OptionDomainNameServers, OptionLogServers, OptionCookieServers,
      OptionLPRServers, OptionImpressServers, OptionResourceLocationServers] then
    match v with
    | .u32 val => (4 :: be32 val, none)
    | .u32s val =>
      if val.length = 0 ∨ val.length > 4 then ([], some .invalidValue)
      else (val.length * 4 % 256 :: val.flatMap be32, none)
    | .ip4s val =>
      if val.length = 0 ∨ val.length > 4 then ([], some .invalidValue)
      else (val.length * 4 % 256 :: val.flatMap (fixBytes 4), none)
    | .bytes val =>
      if val.length = 0 ∨ val.length % 4 ≠ 0 ∨ val.length > 32 then ([], some .invalidValue)
      else (val.length % 256 :: val, none)
    | _ => ([], some .invalidType)
  -- same, except no maximum of 4 addresses
  else if code ∈ [OptionNISServers, OptionNTPServers, OptionNetBIOSNameServers,
      OptionNetBIOSDistServers, OptionFontServers, OptionXDisplayManager,
      OptionNISPlusServers, OptionSMTPServers, OptionPOPServers,
      OptionNNTPServers, OptionWWWServers, OptionFingerServers,
      OptionIRCServers, OptionStreetTalkServers, OptionSTDAServers] then
    match v with
    | .u32 val => (4 :: be32 val, none)
    | .u32s val =>
      if val.length = 0 then ([], some .invalidValue)
      else (val.length * 4 % 256 :: val.flatMap be32, none)
    | .ip4s val =>
      if val.length = 0 then ([], some .invalidValue)
      else (val.length * 4 % 256 :: val.flatMap (fixBytes 4), none)
    | .bytes val =>
      if val.length = 0 ∨ val.length % 4 ≠ 0 then ([], some .invalidValue)
      else (val.length % 256 :: val, none)
    | _ => ([], some .invalidType)
  -- same, except no minimum of 1 address; empty values hit `continue`
  -- with only the code byte already written
  else if code = OptionHomeAgentAddrs then
    match v with
    | .u32 val =>
      if val = 0 then ([], none)
      else (4 :: be32 val, none)
    | .u32s val =>
      if val.length = 0 then ([], none)
      else (val.length * 4 % 256 :: val.flatMap be32, none)
    | .ip4s val =>
      if val.length = 0 then ([], none)
      else (val.length * 4 % 256 :: val.flatMap (fixBytes 4), none)
    | .bytes val =>
      if val.length = 0 then ([], none)
      else if val.length % 4 ≠ 0 then ([], some .invalidValue)
      else (val.length % 256 :: val, none)
    | _ => ([], some .invalidType)
  -- [2]uint32 / [1-4][2]uint32 / [(n*8)-64]byte / [1-4][2][4]byte
  else if code ∈ [OptionPolicyFilters, OptionStaticRoutes] then
    match v with
    | .u32pair a b => (8 :: (be32 a ++ be32 b), none)
    | .u32pairs val =>
      if val.length = 0 ∨ val.length > 4 then ([], some .invalidValue)
      else (val.length * 8 % 256 :: val.flatMap (fun pq => be32 pq.1 ++ be32 pq.2), none)
    | .ip4pairs val =>
      if val.length = 0 ∨ val.length > 4 then ([], some .invalidValue)
      else (val.length * 2 * 4 % 256 :: val.flatMap (fun pq => fixBytes 4 pq.1 ++ fixBytes 4 pq.2), none)
    | .bytes val =>
      if val.length = 0 ∨ val.length % 8 ≠ 0 ∨ val.length > 64 then ([], some .invalidValue)
      else (val.length % 256 :: val, none)
    | _ => ([], some .invalidType)
  -- uint32 / [4]byte; the length byte 4 is written before the type switch
  else if code ∈ [OptionSubnetMask, OptionTimeOffset, OptionSwapServer,
      OptionMTUAgingTimeout, OptionBroadcastAddr, OptionRouterSolicitationAddr,
      OptionARPCacheTimeout, OptionTCPKeepaliveInterval, OptionRequestedIPAddr,
      OptionIPAddrLeaseTime, OptionServerID, OptionRenewalTime,
      OptionRebindingTime] then
    match v with
    | .u32 val => (4 :: be32 val, none)
    | .b4 val => (4 :: fixBytes 4 val, none)
    | _ => ([4], some .invalidType)
  -- uint16 / [1+]uint16 / [2]byte / [1+][2]byte, every value ≥ 68
  else if code = OptionMTUPlateauTable then
    match v with
    | .u16 val =>
      if val < 68 then ([], some .invalidValue)
      else (2 :: be16 val, none)
    | .u16s val =>
      if val.length = 0 then ([], some .invalidValue)
      else mtuWriteU16s [val.length * 2 % 256] val
    | .b2s val =>
      if val.length = 0 then ([], some .invalidValue)
      else mtuWriteB2s [val.length * 2 % 256] val
    | .b2 val =>
      if beU16 (fixBytes 2 val) < 68 then ([], some .invalidValue)
      else (2 :: fixBytes 2 val, none)
    | _ => ([], some .invalidType)
  -- uint16 / [2]byte; the length byte 2 is written before the type switch
  else if code ∈ [OptionBootFileSize, OptionMaxDatagramAssembly, OptionInterfaceMTU,
      OptionMaxMessageSize] then
    match v with
    | .u16 val => (2 :: be16 val, none)
    | .b2 val => (2 :: fixBytes 2 val, none)
    | _ => ([2], some .invalidType)
  -- uint8 / byte; the length byte 1 is written before the type switch
  else if code ∈ [OptionMessageType, OptionOverload, OptionDefaultIPTTL,
      OptionTCPDefaultTTL, OptionNetBIOSNodeType] then
    match v with
    | .u8 val =>
      if code = OptionOverload ∧ (val = 0 ∨ val > 3) then ([1], some .invalidValue)
      else ([1, val % 256], none)
    | _ => ([1], some .invalidType)
  -- (uint8 - 0/1) / bool; the length byte 1 is written before the type switch
  else if code ∈ [OptionIPForwardingEnable, OptionSourceRoutingEnable, OptionAllSubnetsAreLocal,
      OptionMaskDiscoveryEnable, OptionMaskSupplier, OptionRouterDiscoveryEnable,
      OptionTrailerEncapsulation, OptionEthernetEncapsulation, OptionTCPKeepaliveGarbage] then
    match v with
    | .u8 val =>
      if val > 1 then ([1], some .invalidValue)
      else ([1, val % 256], none)
    | .boolean b => ([1, if b then 1 else 0], none)
    | _ => ([1], some .invalidType)
  -- []uint8 / []byte; the ClientID length check here is dead code since
  -- this branch is only reached with code = OptionParameterList
  else if code = OptionParameterList then
    match v with
    | .bytes val =>
      if code = OptionClientID ∧ val.length < 2 then ([val.length % 256], some .invalidValue)
      else (val.length % 256 :: val, none)
    | _ => ([], some .invalidType)
  -- string / []byte
  else if code ∈ [OptionMeritDumpFile, OptionDomainName, OptionRootPath,
      OptionExtensionsPath, OptionMessage, OptionNISDomain,
      OptionNetBIOSScope, OptionNISPlusDomainName, OptionTFTPServerName,
      OptionBootFileName, OptionHostname] then
    match v with
    | .str val => (val.length % 256 :: val, none)
    | .bytes val => (val.length % 256 :: val, none)
    | _ => ([], some .invalidType)
  -- []byte: OptionClassID, OptionClientID, OptionVendorSpecificOptions and
  -- every unrecognised code (fallthrough into default)
  else
    match v with
    | .bytes val =>
      if val.length = 0 then ([], some .invalidValue)
      else if code = OptionClientID ∧ val.length < 2 then ([], some .invalidValue)
      else (val.length % 256 :: val, none)
    | _ => ([], some .invalidType)

/-- the option loop of `SetOptions` (lines 106-499): the bytes written
after the magic cookie, and the error of the first failing branch.  The
code byte of an option is written before its branch runs, so it is
present even when the branch fails or hits `continue`. -/
def encodeOpts : List (Nat × GoVal) → List Nat × Option GoErr
  | [] => ([], none)
  | (code, v) :: rest =>
    match encodeOne code v with
    | (w, some e) => (code % 256 :: w, some e)
    | (w, none) =>
      match encodeOpts rest with
      | (w2, e2) => (code % 256 :: (w ++ w2), e2)

/-- `SetOptions` (lines 95-504).  The previous buffer contributes only its
length: the clearing loop (lines 98-100) zeroes every byte before any
write.  The cookie is copied to the first four bytes, the option loop
writes from index 4, and `OptionEnd` is written only on the success
path (line 501).  `none` models a Go panic: some write's index or slice
ran past the end of the 1236-byte array. -/
def setOptions (old : List Nat) (opts : List (Nat × GoVal)) : Option (List Nat × Option GoErr) :=
  let cleared : List Nat := List.replicate old.length 0
  match encodeOpts opts with
  | (w, some e) =>
    if 4 + w.length ≤ cleared.length ∧ 4 + w.length ≤ OptionsCap then
      some ((dhcpCookie ++ w) ++ cleared.drop (4 + w.length), some e)
    else none
  | (w, none) =>
    if 4 + (w.length + 1) ≤ cleared.length ∧ 4 + (w.length + 1) ≤ OptionsCap then
      some ((dhcpCookie ++ (w ++ [OptionEnd])) ++ cleared.drop (4 + (w.length + 1)), none)
    else none

/-- the canonical all-zero options buffer. -/
def zeroBuf : List Nat := List.replicate OptionsCap 0

/-! ## The decoder (`optionsLen` and `GetOptions`, packet.go lines 47-91)

Both loops are index-driven `for` loops whose index strictly increases,
so they are modelled with a fuel parameter; the fuel `1536` exceeds the
largest possible number of iterations (the index starts at 0 or 4 and
every iteration increases it by at least one, and the loops stop once
the index reaches `OptionsCap - 1` respectively `optionsLen`, which is
at most `1234 + 1 + 255 = 1490`). -/

/-- the scan loop of `optionsLen` (lines 48-62): `idx` is the loop index,
`endv` the `end` result variable.  Cookie bytes in the first four
positions and `OptionPad` bytes are skipped, the scan returns one past
the first `OptionEnd`, and any other code is treated as a record whose
length byte follows it. -/
def optionsLenLoop (buf : List Nat) : Nat → Nat → Nat → Nat
  | 0, _, endv => endv
  | fuel + 1, idx, endv =>
    if idx < OptionsCap - 1 then
      if idx < 4 ∧ buf.getD idx 0 = dhcpCookie.getD idx 0 then
        optionsLenLoop buf fuel (idx + 1) endv
      else if buf.getD idx 0 = OptionPad then
        optionsLenLoop buf fuel (idx + 1) endv
      else if buf.getD idx 0 = OptionEnd then
        idx + 1
      else
        optionsLenLoop buf fuel (idx + 2 + buf.getD (idx + 1) 0) (idx + 1 + buf.getD (idx + 1) 0)
    else endv

/-- `optionsLen` (lines 47-64). -/
def optionsLen (buf : List Nat) : Nat := optionsLenLoop buf 1536 0 0

/-- a Go `map[uint8][]byte` assignment `opts[code] = v`, determinised as
an association list keeping first-insertion order. -/
def insertAssoc (m : List (Nat × List Nat)) (code : Nat) (v : List Nat) :
    List (Nat × List Nat) :=
  if m.any (fun e => e.1 = code) then
    m.map (fun e => if e.1 = code then (code, v) else e)
  else m ++ [(code, v)]

/-- the record loop of `GetOptions` (lines 77-88).  `L` is the loop bound
`p.optionsLen()`.  A `none` result models a Go runtime panic: reading
`p.Options[idx]` or `p.Options[idx+1]` at or past `OptionsCap`, or the
value slice `p.Options[idx+2 : idx+2+optlen]` ending past `OptionsCap`.
Note the loop has no `OptionPad` case: a pad byte is consumed as an
option code and the byte after it as a length. -/
def getOptionsLoop (buf : List Nat) (L : Nat) :
    Nat → Nat → List (Nat × List Nat) → Option (List (Nat × List Nat))
  | 0, _, _ => none
  | fuel + 1, idx, opts =>
    if idx < L then
      if OptionsCap ≤ idx then none
      else if buf.getD idx 0 = OptionEnd then some opts
      else if OptionsCap ≤ idx + 1 then none
      else if OptionsCap < idx + 2 + buf.getD (idx + 1) 0 then none
      else
        getOptionsLoop buf L fuel (idx + 2 + buf.getD (idx + 1) 0)
          (insertAssoc opts (buf.getD idx 0)
            ((buf.drop (idx + 2)).take (buf.getD (idx + 1) 0)))
    else some opts

/-- `GetOptions` (lines 67-91): empty mapping when the buffer is shorter
than the cookie or does not begin with it, otherwise the record loop
from index 4 bounded by `optionsLen`. -/
def getOptions (buf : List Nat) : Option (List (Nat × List Nat)) :=
  if buf.length < 4 then some []
  else if buf.take 4 ≠ dhcpCookie then some []
  else getOptionsLoop buf (optionsLen buf) 1536 4 []

/-- the concrete options buffer for claim C2: the magic cookie, four
records `01 FF <255 zero bytes>`, then a record header `01 FF` at index
1032 whose claimed 255 value bytes overrun the 1236-byte array. -/
def c2buf : List Nat :=
  dhcpCookie ++
    (1 :: 255 :: List.replicate 255 0) ++ (1 :: 255 :: List.replicate 255 0) ++
    (1 :: 255 :: List.replicate 255 0) ++ (1 :: 255 :: List.replicate 255 0) ++
    [1, 255] ++ List.replicate 202 0

/-! ## Well-formed option regions

The specification-side description of a well-formed options region: the
cookie, a run of TLV records, `OptionEnd`, zero padding.  Used to state
the framing and round-trip claims. -/

/-- the on-wire bytes of one TLV record `(code, value)`:
`code | length | value`. -/
def recBytes (r : Nat × List Nat) : List Nat := r.1 :: r.2.length :: r.2

/-- the on-wire bytes of a run of TLV records. -/
def recsBytes (rs : List (Nat × List Nat)) : List Nat := rs.flatMap recBytes

/-- a record the scanners treat as such: its code is neither `OptionPad`
nor `OptionEnd`, and its value fits one length byte. -/
def WFRec (r : Nat × List Nat) : Prop :=
  r.1 ≠ OptionPad ∧ r.1 ≠ OptionEnd ∧ r.2.length ≤ 255

/-- a well-formed options buffer holding exactly the records `rs`:
cookie, records, `OptionEnd`, zero padding to 1236 bytes.  The bound
only requires the `OptionEnd` byte to lie inside the 1236-byte region
(index `4 + record bytes ≤ 1235`); the maximal region, with `OptionEnd`
at index 1235, is well formed, although the `optionsLen` scan
(`idx < cap-1`) never visits that index. -/
def wfOptionsBuf (rs : List (Nat × List Nat)) (buf : List Nat) : Prop :=
  buf = dhcpCookie ++ recsBytes rs ++
      OptionEnd :: List.replicate (1236 - (5 + (recsBytes rs).length)) 0 ∧
  (∀ r ∈ rs, WFRec r) ∧ 5 + (recsBytes rs).length ≤ 1236

/-- the records of the maximal well-formed options region: 1231 record
bytes, so the terminating `OptionEnd` sits at index 1235, the last byte
of the array. -/
def c7recs : List (Nat × List Nat) :=
  [(1, List.replicate 255 7), (1, List.replicate 255 7), (1, List.replicate 255 7),
   (1, List.replicate 255 7), (1, List.replicate 201 7)]

/-- the maximal well-formed options region itself (no padding: the
`OptionEnd` byte is the 1236th byte). -/
def c7buf : List Nat :=
  dhcpCookie ++ recsBytes c7recs ++
    OptionEnd :: List.replicate (1236 - (5 + (recsBytes c7recs).length)) 0

/-- a code/value pair whose encoding is a correctly length-prefixed byte
run that the same code's branch accepts again as a `[]byte` and encodes
identically: the byte-run-stable groups (IPv4 lists and pairs,
`ParameterList`, text, opaque blobs) with values of at most 255 bytes.
The fixed-width, enumerated and boolean groups are not stable: their
branches reject a `[]byte` representation with `InvalidType`. -/
def ByteRunStable (c : Nat) (v : GoVal) : Prop :=
  ∃ val : List Nat,
    encodeOne c v = (val.length :: val, none) ∧ val.length ≤ 255 ∧
    encodeOne c (.bytes val) = (val.length :: val, none)

/-- the record a successfully encoded option contributes: its code and
the value bytes after the length byte. -/
def decodedRec (cv : Nat × GoVal) : Nat × List Nat :=
  (cv.1, (encodeOne cv.1 cv.2).1.drop 1)

/-! ## The packet framer (`Packet`, `toBytes`, `parsePacket`) -/

/-- the exported `Packet` struct (packet.go lines 31-40); `binary.Write`
and `binary.Read` serialise its fields in order, multi-byte integers
big-endian, for a total of 236 + 1236 = 1472 bytes. -/
structure Packet where
  Operation : Nat
  HardwareType : Nat
  HardwareLength : Nat
  Hops : Nat
  TransactionID : Nat
  Seconds : Nat
  Flags : Nat
  ClientIP : List Nat
  YourIP : List Nat
  ServerIP : List Nat
  GatewayIP : List Nat
  ClientHardwareAddress : List Nat
  ServerHostname : List Nat
  BootFilename : List Nat
  Options : List Nat
deriving DecidableEq, Repr

/-- the 236 fixed-header bytes `binary.Write` emits before the options. -/
def headerBytes (p : Packet) : List Nat :=
  [p.Operation % 256, p.HardwareType % 256, p.HardwareLength % 256, p.Hops % 256]
    ++ be32 p.TransactionID ++ be16 p.Seconds ++ be16 p.Flags
    ++ fixBytes 4 p.ClientIP ++ fixBytes 4 p.YourIP ++ fixBytes 4 p.ServerIP
    ++ fixBytes 4 p.GatewayIP ++ fixBytes 16 p.ClientHardwareAddress
    ++ fixBytes 64 p.ServerHostname ++ fixBytes 128 p.BootFilename

/-- `toBytes` (packet.go lines 506-525): `binary.Write` emits the 1472
struct bytes; the slice is then cut to `236 + 64` when `optionsLen` is
below the BOOTP minimum of 64, else to `236 + optionsLen`.  `none`
models the re-slice reaching past the 1472 written bytes (capacity- and
allocator-dependent in Go). -/
def toBytes (p : Packet) : Option (List Nat) :=
  if optionsLen (fixBytes 1236 p.Options) < 64 then
    some ((headerBytes p ++ fixBytes 1236 p.Options).take (236 + 64))
  else if 236 + optionsLen (fixBytes 1236 p.Options) ≤ 1472 then
    some ((headerBytes p ++ fixBytes 1236 p.Options).take
      (236 + optionsLen (fixBytes 1236 p.Options)))
  else none

/-- big-endian `uint16` read at offset `i`. -/
def rd16 (data : List Nat) (i : Nat) : Nat := data.getD i 0 * 256 + data.getD (i + 1) 0

/-- big-endian `uint32` read at offset `i`. -/
def rd32 (data : List Nat) (i : Nat) : Nat :=
  data.getD i 0 * 16777216 + data.getD (i + 1) 0 * 65536
    + data.getD (i + 2) 0 * 256 + data.getD (i + 3) 0

/-- `parsePacket` (packet.go lines 527-535): `binary.Read` fills the full
1472-byte `Packet` struct via `io.ReadFull`, so it fails with
`io.ErrUnexpectedEOF` (modelled `none`) whenever fewer than 1472 bytes
are supplied; otherwise the fixed fields are read big-endian from the
first 236 bytes and the options region verbatim from the next 1236. -/
def parsePacket (data : List Nat) : Option Packet :=
  if data.length < 1472 then none
  else some
    { Operation := data.getD 0 0
      HardwareType := data.getD 1 0
      HardwareLength := data.getD 2 0
      Hops := data.getD 3 0
      TransactionID := rd32 data 4
      Seconds := rd16 data 8
      Flags := rd16 data 10
      ClientIP := (data.drop 12).take 4
      YourIP := (data.drop 16).take 4
      ServerIP := (data.drop 20).take 4
      GatewayIP := (data.drop 24).take 4
      ClientHardwareAddress := (data.drop 28).take 16
      ServerHostname := (data.drop 44).take 64
      BootFilename := (data.drop 108).take 128
      Options := (data.drop 236).take 1236 }

/-- an all-zero packet carrying the maximal well-formed options region. -/
def c7packet : Packet :=
  { Operation := 0, HardwareType := 0, HardwareLength := 0, Hops := 0,
    TransactionID := 0, Seconds := 0, Flags := 0,
    ClientIP := [], YourIP := [], ServerIP := [], GatewayIP := [],
    ClientHardwareAddress := [], ServerHostname := [], BootFilename := [],
    Options := c7buf }

/-! ## The Discover read loop (client `Discover`, read loop lines 194-219)

The socket is abstracted as the sequence of `ReadFromUDP` outcomes, one
per loop iteration; each successful read reports the byte count `n` and
leaves `buf` in the 1472-byte `data` buffer that is then handed whole to
`parsePacket`. -/

/-- one `ReadFromUDP` outcome. -/
inductive ReadRes where
  | rerr                         -- the read returned an error
  | dgram (n : Nat) (buf : List Nat)  -- n bytes received, buffer contents
deriving DecidableEq, Repr

/-- a `Discover` failure: a read error or a parse error, both fatal. -/
inductive DiscoverErr where
  | readFailed
  | parseFailed
deriving DecidableEq, Repr

/-- the `Discover` read loop: `rem` iterations remain, `t` indexes the
next read.  An erroring read or parse aborts the whole call; an empty
datagram (`n = 0`) is skipped; every other datagram is parsed and
appended. -/
def discoverLoop (reads : Nat → ReadRes) :
    Nat → Nat → List Packet → Except DiscoverErr (List Packet)
  | _, 0, acc => .ok acc
  | t, rem + 1, acc =>
    match reads t with
    | .rerr => .error .readFailed
    | .dgram n buf =>
      if n = 0 then discoverLoop reads (t + 1) rem acc
      else
        match parsePacket buf with
        | none => .error .parseFailed
        | some p => discoverLoop reads (t + 1) rem (acc ++ [p])

/-- the read phase of `Discover`: the loop bound is the `uint8`
expression `1 + c.MaxReadRetries`, which wraps modulo 256. -/
def discover (maxReadRetries : Nat) (reads : Nat → ReadRes) :
    Except DiscoverErr (List Packet) :=
  discoverLoop reads 0 ((1 + maxReadRetries % 256) % 256) []

/-! ## General lemmas -/

/-- success shape of `setOptions`: cookie, encoded options, `OptionEnd`,
then the zeroes the clearing loop left. -/
theorem setOptions_ok (old : List Nat) (opts : List (Nat × GoVal)) (w : List Nat)
    (h : encodeOpts opts = (w, none)) (hold : old.length = 1236)
    (hfit : 4 + (w.length + 1) ≤ 1236) :
    setOptions old opts =
      some ((dhcpCookie ++ (w ++ [OptionEnd])) ++ List.replicate (1236 - (4 + (w.length + 1))) 0,
        none) := by
  unfold setOptions
  rw [h, hold]
  simp only [List.length_replicate, OptionsCap, List.drop_replicate]
  rw [if_pos ⟨hfit, hfit⟩]

/-- error shape of `setOptions`: cookie, the bytes written before the
failing check, no `OptionEnd`, then zeroes. -/
theorem setOptions_err (old : List Nat) (opts : List (Nat × GoVal)) (w : List Nat) (e : GoErr)
    (h : encodeOpts opts = (w, some e)) (hold : old.length = 1236)
    (hfit : 4 + w.length ≤ 1236) :
    setOptions old opts =
      some ((dhcpCookie ++ w) ++ List.replicate (1236 - (4 + w.length)) 0, some e) := by
  unfold setOptions
  rw [h, hold]
  simp only [List.length_replicate, OptionsCap, List.drop_replicate]
  rw [if_pos ⟨hfit, hfit⟩]

/-- every position of an all-zero list reads zero. -/
theorem getD_replicate_zero (n k : Nat) : (List.replicate n (0 : Nat)).getD k 0 = 0 := by
  rcases lt_or_le k (List.replicate n (0 : Nat)).length with h | h
  · rw [List.getD_eq_getElem _ _ h, List.getElem_replicate]
  · exact List.getD_eq_default _ _ h

/-- a record run is at least two bytes per record. -/
theorem recsBytes_two_le (rs : List (Nat × List Nat)) :
    2 * rs.length ≤ (recsBytes rs).length := by
  induction rs with
  | nil => simp [recsBytes]
  | cons r rs ih =>
    simp only [recsBytes, List.flatMap_cons, List.length_append, List.length_cons] at ih ⊢
    simp only [recBytes, List.length_cons]
    omega

/-- a list of exactly `n` bytes is its own fixed-size array value. -/
theorem fixBytes_self (n : Nat) (l : List Nat) (h : l.length = n) : fixBytes n l = l := by
  subst h
  exact List.take_left l _

/-- the fixed header is always 236 bytes. -/
theorem headerBytes_length (p : Packet) : (headerBytes p).length = 236 := by
  simp [headerBytes, be32, be16, fixBytes]

/-- a fixed-size array value has exactly `n` bytes. -/
theorem fixBytes_length (n : Nat) (l : List Nat) : (fixBytes n l).length = n := by
  simp [fixBytes]

/-- the `optionsLen` scan over a run of well-formed records starting past
the cookie region returns one past the terminating `OptionEnd` byte. -/
theorem optionsLenLoop_records (rs : List (Nat × List Nat)) :
    ∀ (pre post : List Nat) (endv fuel : Nat),
      (∀ r ∈ rs, WFRec r) → 4 ≤ pre.length →
      pre.length + (recsBytes rs).length < 1235 →
      rs.length < fuel →
      optionsLenLoop (pre ++ (recsBytes rs ++ (OptionEnd :: post))) fuel pre.length endv =
        pre.length + (recsBytes rs).length + 1 := by
  induction rs with
  | nil =>
    intro pre post endv fuel _ hpre hbound hfuel
    cases fuel with
    | zero => omega
    | succ f =>
      have hcode : (pre ++ (recsBytes [] ++ (OptionEnd :: post))).getD pre.length 0 =
          OptionEnd := by
        rw [List.getD_append_right _ _ _ _ (le_refl _)]
        simp [recsBytes]
      have hflat0 : (recsBytes ([] : List (Nat × List Nat))).length = 0 := by simp [recsBytes]
      simp only [optionsLenLoop, hcode]
      rw [if_pos (show pre.length < OptionsCap - 1 by simp only [OptionsCap]; omega)]
      rw [if_neg (fun h => absurd h.1 (by omega))]
      rw [if_neg (show ¬OptionEnd = OptionPad by decide)]
      simp only [if_true]
      omega
  | cons r rs ih =>
    intro pre post endv fuel hwf hpre hbound hfuel
    cases fuel with
    | zero => simp at hfuel
    | succ f =>
      obtain ⟨hc0, hc255, hlen⟩ := hwf r (by simp)
      have hassoc : pre ++ (recsBytes (r :: rs) ++ (OptionEnd :: post)) =
          (pre ++ recBytes r) ++ (recsBytes rs ++ (OptionEnd :: post)) := by
        simp [recsBytes, List.flatMap_cons, List.append_assoc]
      have hcode : (pre ++ (recsBytes (r :: rs) ++ (OptionEnd :: post))).getD pre.length 0 =
          r.1 := by
        rw [List.getD_append_right _ _ _ _ (le_refl _)]
        simp [recsBytes, List.flatMap_cons, recBytes]
      have hlenb :
          (pre ++ (recsBytes (r :: rs) ++ (OptionEnd :: post))).getD (pre.length + 1) 0 =
          r.2.length := by
        rw [List.getD_append_right _ _ _ _ (by omega)]
        simp [recsBytes, List.flatMap_cons, recBytes]
      have hflatlen : (recsBytes (r :: rs)).length =
          r.2.length + 2 + (recsBytes rs).length := by
        simp [recsBytes, List.flatMap_cons, recBytes]
        omega
      have hplen : (pre ++ recBytes r).length = pre.length + 2 + r.2.length := by
        simp [recBytes]
        omega
      simp only [optionsLenLoop, hcode, hlenb]
      rw [if_pos (show pre.length < OptionsCap - 1 by simp only [OptionsCap]; omega)]
      rw [if_neg (fun h => absurd h.1 (by omega))]
      rw [if_neg hc0, if_neg hc255]
      rw [hassoc]
      have harg : pre.length + 2 + r.2.length = (pre ++ recBytes r).length := hplen.symm
      rw [harg]
      rw [ih (pre ++ recBytes r) post _ f (fun x hx => hwf x (by simp [hx]))
        (by omega) (by omega)
        (by simp only [List.length_cons] at hfuel; omega)]
      omega

/-- on a well-formed options buffer whose `OptionEnd` byte lies strictly
below index 1235, `optionsLen` returns the index one past the
`OptionEnd` byte: `4 + (record bytes) + 1`.  (At the maximal region the
scan misses the `OptionEnd` byte: see the C7 counterexample.) -/
theorem optionsLen_wf (rs : List (Nat × List Nat)) (buf : List Nat)
    (h : wfOptionsBuf rs buf) (hstrict : 5 + (recsBytes rs).length ≤ 1235) :
    optionsLen buf = 5 + (recsBytes rs).length := by
  obtain ⟨hbuf, hwf, hbound⟩ := h
  subst hbuf
  have h2 := recsBytes_two_le rs
  have hck : dhcpCookie.length = 4 := rfl
  have hstep : optionsLen (dhcpCookie ++ recsBytes rs ++
      OptionEnd :: List.replicate (1236 - (5 + (recsBytes rs).length)) 0) =
      optionsLenLoop (dhcpCookie ++ recsBytes rs ++
        OptionEnd :: List.replicate (1236 - (5 + (recsBytes rs).length)) 0) 1532 4 0 := rfl
  rw [hstep, List.append_assoc]
  have key := optionsLenLoop_records rs dhcpCookie
    (List.replicate (1236 - (5 + (recsBytes rs).length)) 0) 0 1532 hwf
    (by omega) (by omega) (by omega)
  rw [hck] at key
  rw [key]
  omega

/-- the `GetOptions` record loop over a run of well-formed records folds
each record into the map in order and stops at the terminator. -/
theorem getOptionsLoop_records (rs : List (Nat × List Nat)) :
    ∀ (pre post : List Nat) (acc : List (Nat × List Nat)) (fuel : Nat),
      (∀ r ∈ rs, WFRec r) → 4 ≤ pre.length →
      pre.length + (recsBytes rs).length + 1 ≤ 1236 →
      rs.length < fuel →
      getOptionsLoop (pre ++ (recsBytes rs ++ (OptionEnd :: post)))
          (pre.length + ((recsBytes rs).length + 1)) fuel pre.length acc =
        some (rs.foldl (fun m r => insertAssoc m r.1 r.2) acc) := by
  induction rs with
  | nil =>
    intro pre post acc fuel _ hpre hbound hfuel
    cases fuel with
    | zero => omega
    | succ f =>
      have hcode : (pre ++ (recsBytes [] ++ (OptionEnd :: post))).getD pre.length 0 =
          OptionEnd := by
        rw [List.getD_append_right _ _ _ _ (le_refl _)]
        simp [recsBytes]
      have hflat0 : (recsBytes ([] : List (Nat × List Nat))).length = 0 := by simp [recsBytes]
      simp only [getOptionsLoop, hcode]
      rw [if_pos (show pre.length < pre.length + ((recsBytes ([] : List (Nat × List Nat))).length + 1)
        by omega)]
      rw [if_neg (show ¬OptionsCap ≤ pre.length by simp only [OptionsCap]; omega)]
      simp only [if_true, List.foldl_nil]
  | cons r rs ih =>
    intro pre post acc fuel hwf hpre hbound hfuel
    cases fuel with
    | zero => simp at hfuel
    | succ f =>
      obtain ⟨hc0, hc255, hlen⟩ := hwf r (by simp)
      have hassoc : pre ++ (recsBytes (r :: rs) ++ (OptionEnd :: post)) =
          (pre ++ recBytes r) ++ (recsBytes rs ++ (OptionEnd :: post)) := by
        simp [recsBytes, List.flatMap_cons, List.append_assoc]
      have hcode : (pre ++ (recsBytes (r :: rs) ++ (OptionEnd :: post))).getD pre.length 0 =
          r.1 := by
        rw [List.getD_append_right _ _ _ _ (le_refl _)]
        simp [recsBytes, List.flatMap_cons, recBytes]
      have hlenb :
          (pre ++ (recsBytes (r :: rs) ++ (OptionEnd :: post))).getD (pre.length + 1) 0 =
          r.2.length := by
        rw [List.getD_append_right _ _ _ _ (by omega)]
        simp [recsBytes, List.flatMap_cons, recBytes]
      have hflatlen : (recsBytes (r :: rs)).length =
          r.2.length + 2 + (recsBytes rs).length := by
        simp [recsBytes, List.flatMap_cons, recBytes]
        omega
      have hplen : (pre ++ recBytes r).length = pre.length + 2 + r.2.length := by
        simp [recBytes]
        omega
      have hval : ((pre ++ (recsBytes (r :: rs) ++ (OptionEnd :: post))).drop
          (pre.length + 2)).take r.2.length = r.2 := by
        have h1 : pre ++ (recsBytes (r :: rs) ++ (OptionEnd :: post)) =
            pre ++ (r.1 :: r.2.length :: (r.2 ++ (recsBytes rs ++ (OptionEnd :: post)))) := by
          simp [recsBytes, List.flatMap_cons, recBytes, List.append_assoc]
        rw [h1, List.drop_append 2]
        show (r.2 ++ (recsBytes rs ++ (OptionEnd :: post))).take r.2.length = r.2
        exact List.take_left r.2 _
      simp only [getOptionsLoop, hcode, hlenb]
      rw [if_pos (show pre.length < pre.length + ((recsBytes (r :: rs)).length + 1) by omega)]
      rw [if_neg (show ¬OptionsCap ≤ pre.length by simp only [OptionsCap]; omega)]
      rw [if_neg hc255]
      rw [if_neg (show ¬OptionsCap ≤ pre.length + 1 by simp only [OptionsCap]; omega)]
      rw [if_neg (show ¬OptionsCap < pre.length + 2 + r.2.length by
        simp only [OptionsCap]; omega)]
      rw [hval]
      have hL : pre.length + ((recsBytes (r :: rs)).length + 1) =
          (pre ++ recBytes r).length + ((recsBytes rs).length + 1) := by
        rw [hplen]
        omega
      rw [hassoc, hL, show pre.length + 2 + r.2.length = (pre ++ recBytes r).length
        from hplen.symm]
      rw [ih (pre ++ recBytes r) post (insertAssoc acc r.1 r.2) f
        (fun x hx => hwf x (by simp [hx])) (by omega) (by omega)
        (by simp only [List.length_cons] at hfuel; omega)]
      rfl

/-- folding fresh-keyed records into the Go map appends them in order. -/
theorem foldl_insertAssoc_fresh (rs : List (Nat × List Nat)) :
    ∀ acc : List (Nat × List Nat),
      (∀ r ∈ rs, ∀ a ∈ acc, a.1 ≠ r.1) →
      (rs.map Prod.fst).Nodup →
      rs.foldl (fun m r => insertAssoc m r.1 r.2) acc = acc ++ rs := by
  induction rs with
  | nil =>
    intro acc _ _
    simp
  | cons r rs ih =>
    intro acc hfresh hnodup
    have hany : acc.any (fun e => e.1 = r.1) = false := by
      rw [List.any_eq_false]
      intro a ha
      simp only [decide_eq_true_eq]
      exact hfresh r (by simp) a ha
    have hstep : insertAssoc acc r.1 r.2 = acc ++ [r] := by
      simp only [insertAssoc]
      rw [if_neg (by simp [hany])]
    obtain ⟨hnotin, hnodup'⟩ := by
      rw [List.map_cons, List.nodup_cons] at hnodup
      exact hnodup
    rw [List.foldl_cons, hstep,
      ih (acc ++ [r]) ?_ hnodup']
    · simp
    · intro x hx a ha
      rcases List.mem_append.mp ha with hacc | hr
      · exact hfresh x (by simp [hx]) a hacc
      · have : a = r := by simpa using hr
        subst this
        intro heq
        exact hnotin (heq ▸ List.mem_map_of_mem Prod.fst hx)

/-- decoding a well-formed options buffer with pairwise-distinct codes
recovers exactly its records, in order. -/
theorem getOptions_wf (rs : List (Nat × List Nat)) (buf : List Nat)
    (h : wfOptionsBuf rs buf) (hnodup : (rs.map Prod.fst).Nodup)
    (hstrict : 5 + (recsBytes rs).length ≤ 1235) :
    getOptions buf = some rs := by
  have hol := optionsLen_wf rs buf h hstrict
  obtain ⟨hbuf, hwf, hbound⟩ := h
  subst hbuf
  have hck : dhcpCookie.length = 4 := rfl
  have h2 := recsBytes_two_le rs
  set Z := List.replicate (1236 - (5 + (recsBytes rs).length)) (0 : Nat) with hZ
  have hZlen : Z.length = 1236 - (5 + (recsBytes rs).length) := by
    rw [hZ, List.length_replicate]
  have hlen : ((dhcpCookie ++ recsBytes rs) ++ (OptionEnd :: Z)).length = 1236 := by
    rw [List.length_append, List.length_append, List.length_cons, hZlen]
    omega
  have htake : ((dhcpCookie ++ recsBytes rs) ++ (OptionEnd :: Z)).take 4 = dhcpCookie := by
    rw [List.append_assoc]
    rw [show (4 : Nat) = dhcpCookie.length from rfl, List.take_left]
  unfold getOptions
  rw [if_neg (by rw [hlen]; omega)]
  rw [if_neg (show ¬((dhcpCookie ++ recsBytes rs) ++ (OptionEnd :: Z)).take 4 ≠ dhcpCookie
    from fun hne => hne htake)]
  rw [hol]
  rw [List.append_assoc]
  have hspine := getOptionsLoop_records rs dhcpCookie Z [] 1536 hwf
    (by omega) (by omega) (by omega)
  rw [hck] at hspine
  rw [show 5 + (recsBytes rs).length = 4 + ((recsBytes rs).length + 1) from by omega]
  refine hspine.trans ?_
  rw [foldl_insertAssoc_fresh rs [] (fun r _ a ha => absurd ha (List.not_mem_nil a)) hnodup]
  simp

/-- over byte-run-stable options the encoder succeeds and writes exactly
the record run of the decoded records. -/
theorem encodeOpts_stable (opts : List (Nat × GoVal))
    (h : ∀ cv ∈ opts, ByteRunStable cv.1 cv.2 ∧ cv.1 < 256) :
    encodeOpts opts = (recsBytes (opts.map decodedRec), none) := by
  induction opts with
  | nil => simp [encodeOpts, recsBytes]
  | cons cv rest ih =>
    obtain ⟨⟨val, he, hl, _⟩, hc⟩ := h cv (by simp)
    have hdrop : (encodeOne cv.1 cv.2).1.drop 1 = val := by
      rw [he]
      rfl
    have hrest := ih (fun x hx => h x (by simp [hx]))
    simp only [encodeOpts, he, hrest]
    simp [recsBytes, List.flatMap_cons, recBytes, decodedRec, hdrop, Nat.mod_eq_of_lt hc]

/-! ## Claims -/

/-- C1 counterexample: the accepted mapping `{MessageType ↦ uint8 1}`
encodes fine and decodes to `{53 ↦ [1]}`, but re-encoding that decoded
mapping fails with `InvalidType`: the `MessageType` branch accepts only
`uint8`, not the `[]byte` run the decoder produces — so the round trip
does not succeed, let alone reproduce the byte run. -/
theorem c1_counterexample :
    setOptions zeroBuf [(OptionMessageType, .u8 1)] =
      some ((dhcpCookie ++ ([53, 1, 1] ++ [OptionEnd])) ++ List.replicate 1228 0, none) ∧
    getOptions ((dhcpCookie ++ ([53, 1, 1] ++ [OptionEnd])) ++ List.replicate 1228 0) =
      some [(53, [1])] ∧
    setOptions zeroBuf [(53, .bytes [1])] =
      some ((dhcpCookie ++ [53, 1]) ++ List.replicate 1230 0, some .invalidType) := by
  refine ⟨?_, by decide, ?_⟩
  · exact setOptions_ok zeroBuf _ [53, 1, 1] (by decide) (by decide) (by decide)
  · exact setOptions_err zeroBuf _ [53, 1] .invalidType (by decide) (by decide) (by decide)

/-- C1 amended: the round-trip canonical fixed point holds on the
byte-run-stable fragment: for every mapping of pairwise-distinct codes
(none `OptionPad` or `OptionEnd`) whose values are byte-run-stable for
their codes (IPv4 list/pair groups, `ParameterList`, text, opaque
blobs, values of at most 255 bytes — excluding the fixed-width,
enumerated and boolean groups, whose branches reject the decoded
`[]byte` run as `InvalidType`) and whose encoding fits the options
region, `SetOptions` succeeds, `GetOptions` of the result recovers
exactly the encoded records, and `SetOptions` on that decoded mapping
(same iteration order) succeeds and produces the identical options byte
run. -/
theorem c1_roundtrip_amended (opts : List (Nat × GoVal)) (old old' : List Nat)
    (hold : old.length = 1236) (hold' : old'.length = 1236)
    (hstable : ∀ cv ∈ opts,
      ByteRunStable cv.1 cv.2 ∧ cv.1 ≠ OptionPad ∧ cv.1 ≠ OptionEnd ∧ cv.1 < 256)
    (hnodup : (opts.map Prod.fst).Nodup)
    (hfit : 5 + (recsBytes (opts.map decodedRec)).length ≤ 1235) :
    ∃ B : List Nat,
      setOptions old opts = some (B, none) ∧
      getOptions B = some (opts.map decodedRec) ∧
      setOptions old' ((opts.map decodedRec).map (fun r => (r.1, GoVal.bytes r.2))) =
        some (B, none) := by
  have henc := encodeOpts_stable opts (fun cv hcv => ⟨(hstable cv hcv).1, (hstable cv hcv).2.2.2⟩)
  have hfit' : 4 + ((recsBytes (opts.map decodedRec)).length + 1) ≤ 1236 := by omega
  have hB := setOptions_ok old opts (recsBytes (opts.map decodedRec)) henc hold hfit'
  -- the buffer in well-formed shape
  have hshape : (dhcpCookie ++ (recsBytes (opts.map decodedRec) ++ [OptionEnd])) ++
      List.replicate (1236 - (4 + ((recsBytes (opts.map decodedRec)).length + 1))) 0 =
      dhcpCookie ++ recsBytes (opts.map decodedRec) ++
        OptionEnd :: List.replicate (1236 - (5 + (recsBytes (opts.map decodedRec)).length)) 0 := by
    rw [show 1236 - (4 + ((recsBytes (opts.map decodedRec)).length + 1)) =
      1236 - (5 + (recsBytes (opts.map decodedRec)).length) from by omega]
    simp [List.append_assoc]
  have hwfrec : ∀ r ∈ opts.map decodedRec, WFRec r := by
    intro r hr
    obtain ⟨cv, hcv, hrec⟩ := List.mem_map.mp hr
    obtain ⟨⟨val, he, hl, _⟩, h0, h255, _⟩ := hstable cv hcv
    subst hrec
    refine ⟨h0, h255, ?_⟩
    simp only [decodedRec, he]
    simpa using hl
  have hwf : wfOptionsBuf (opts.map decodedRec)
      ((dhcpCookie ++ (recsBytes (opts.map decodedRec) ++ [OptionEnd])) ++
        List.replicate (1236 - (4 + ((recsBytes (opts.map decodedRec)).length + 1))) 0) :=
    ⟨hshape, hwfrec, by omega⟩
  have hnodup' : ((opts.map decodedRec).map Prod.fst).Nodup := by
    simpa [List.map_map, decodedRec, Function.comp] using hnodup
  have hdec := getOptions_wf (opts.map decodedRec) _ hwf hnodup' (by omega)
  -- re-encode the decoded mapping
  have hstable2 : ∀ cv2 ∈ (opts.map decodedRec).map (fun r => (r.1, GoVal.bytes r.2)),
      ByteRunStable cv2.1 cv2.2 ∧ cv2.1 < 256 := by
    intro cv2 hcv2
    obtain ⟨r, hr, hrec2⟩ := List.mem_map.mp hcv2
    obtain ⟨cv, hcv, hrec⟩ := List.mem_map.mp hr
    obtain ⟨⟨val, he, hl, hre⟩, _, _, hlt⟩ := hstable cv hcv
    have hrval : r = (cv.1, val) := by
      rw [← hrec]
      simp only [decodedRec, he]
      rfl
    subst hrec2
    rw [hrval]
    exact ⟨⟨val, hre, hl, hre⟩, hlt⟩
  have hfix2 : ((opts.map decodedRec).map (fun r => (r.1, GoVal.bytes r.2))).map decodedRec =
      opts.map decodedRec := by
    rw [List.map_map]
    have : ∀ r ∈ opts.map decodedRec, (decodedRec ∘ fun r => (r.1, GoVal.bytes r.2)) r = r := by
      intro r hr
      obtain ⟨cv, hcv, hrec⟩ := List.mem_map.mp hr
      obtain ⟨⟨val, he, hl, hre⟩, _⟩ := hstable cv hcv
      have hrval : r = (cv.1, val) := by
        rw [← hrec]
        simp only [decodedRec, he]
        rfl
      rw [hrval]
      simp only [Function.comp, decodedRec, hre]
      rfl
    rw [List.map_congr_left this]
    simp
  have henc2 := encodeOpts_stable ((opts.map decodedRec).map (fun r => (r.1, GoVal.bytes r.2)))
    hstable2
  rw [hfix2] at henc2
  have hB2 := setOptions_ok old' ((opts.map decodedRec).map (fun r => (r.1, GoVal.bytes r.2)))
    (recsBytes (opts.map decodedRec)) henc2 hold' hfit'
  exact ⟨_, hB, hdec, hB2⟩

/-- witness for C1 amended at the mapping
`{ParameterList ↦ [1, 3, 6], ClassID ↦ [65]}`. -/
theorem c1_witness :
    ∃ B : List Nat,
      setOptions zeroBuf [(55, .bytes [1, 3, 6]), (60, .bytes [65])] = some (B, none) ∧
      getOptions B =
        some ([(55, .bytes [1, 3, 6]), (60, .bytes [65])].map decodedRec) ∧
      setOptions zeroBuf
        (([(55, .bytes [1, 3, 6]), (60, .bytes [65])].map decodedRec).map
          (fun r => (r.1, GoVal.bytes r.2))) = some (B, none) := by
  refine c1_roundtrip_amended [(55, .bytes [1, 3, 6]), (60, .bytes [65])] zeroBuf zeroBuf
    (by decide) (by decide) ?_ (by decide) (by decide)
  intro cv hcv
  rcases List.mem_cons.mp hcv with h | h
  · subst h
    exact ⟨⟨[1, 3, 6], by decide, by decide, by decide⟩, by decide, by decide, by decide⟩
  · have h' : cv = (60, .bytes [65]) := by simpa using h
    subst h'
    exact ⟨⟨[65], by decide, by decide, by decide⟩, by decide, by decide, by decide⟩

/-- C6 counterexample: a 300-byte datagram has at least 236 bytes, yet
`parsePacket` fails: `binary.Read` on the full `Packet` struct demands
1472 bytes via `io.ReadFull`. -/
theorem c6_counterexample :
    parsePacket (List.replicate 300 0) = none ∧
    236 ≤ (List.replicate 300 (0 : Nat)).length := by
  constructor
  · unfold parsePacket
    rw [if_pos (by simp)]
  · simp

/-- C6 amended: `parsePacket` fails if and only if fewer than
1472 = 236 + 1236 bytes are supplied (not 236); for at least 1472 bytes
it succeeds, reading the fixed fields big-endian from the first 236
bytes and the options region verbatim from the next 1236 bytes.  Short
input is rejected rather than zero-extended. -/
theorem c6_parse_boundary_amended (data : List Nat) :
    ((parsePacket data).isSome ↔ 1472 ≤ data.length) ∧
    ∀ p, parsePacket data = some p →
      p.Operation = data.getD 0 0 ∧ p.HardwareType = data.getD 1 0 ∧
      p.HardwareLength = data.getD 2 0 ∧ p.Hops = data.getD 3 0 ∧
      p.TransactionID = rd32 data 4 ∧ p.Seconds = rd16 data 8 ∧ p.Flags = rd16 data 10 ∧
      p.ClientIP = (data.drop 12).take 4 ∧ p.YourIP = (data.drop 16).take 4 ∧
      p.ServerIP = (data.drop 20).take 4 ∧ p.GatewayIP = (data.drop 24).take 4 ∧
      p.ClientHardwareAddress = (data.drop 28).take 16 ∧
      p.ServerHostname = (data.drop 44).take 64 ∧
      p.BootFilename = (data.drop 108).take 128 ∧
      p.Options = (data.drop 236).take 1236 := by
  constructor
  · unfold parsePacket
    split
    · rename_i h
      constructor
      · intro hs
        exact absurd hs (by simp)
      · intro hs
        omega
    · rename_i h
      constructor
      · intro _
        omega
      · intro _
        simp
  · intro p hp
    unfold parsePacket at hp
    split at hp
    · exact absurd hp (by simp)
    · cases hp
      exact ⟨rfl, rfl, rfl, rfl, rfl, rfl, rfl, rfl, rfl, rfl, rfl, rfl, rfl, rfl, rfl⟩

/-- witness for C6 amended at a 1472-byte all-zero datagram. -/
theorem c6_witness :
    (parsePacket (List.replicate 1472 0)).isSome ∧
    1472 ≤ (List.replicate 1472 (0 : Nat)).length :=
  ⟨(c6_parse_boundary_amended _).1.mpr (by simp), by simp⟩

/-- C7 counterexample: the maximal well-formed options region — 1231
record bytes, `OptionEnd` at index 1235, the last byte of the array —
is well formed, yet the `optionsLen` scan (`idx < cap(p.Options)-1 =
1235`) never reaches the `OptionEnd` byte: it returns 1234, the index
of the last record's final value byte, instead of 1236 (the index one
past `OptionEnd`), and `toBytes` yields 236 + 1234 = 1470 bytes, not
236 + 1236 = 1472 as the claim's length rule requires. -/
theorem c7_counterexample :
    wfOptionsBuf c7recs c7buf ∧
    c7buf.getD 1235 0 = OptionEnd ∧
    c7buf.length = 1236 ∧
    optionsLen c7buf = 1234 ∧
    ∃ b, toBytes c7packet = some b ∧ b.length = 1470 := by
  have hflat : (recsBytes c7recs).length = 1231 := by decide
  have hck : dhcpCookie.length = 4 := rfl
  have hpl : (dhcpCookie ++ recsBytes c7recs).length = 1235 := by
    rw [List.length_append, hflat, hck]
  have hlen : c7buf.length = 1236 := by
    unfold c7buf
    rw [List.length_append, List.length_cons, List.length_replicate, hflat, hpl]
  have hgetd : c7buf.getD 1235 0 = OptionEnd := by
    unfold c7buf
    rw [List.getD_append_right _ _ _ _ (le_of_eq hpl), hpl, Nat.sub_self]
    rfl
  have hol : optionsLen c7buf = 1234 := by decide
  have hwfr : ∀ r ∈ c7recs, WFRec r := by
    intro r hr
    simp only [c7recs, List.mem_cons, List.not_mem_nil, or_false] at hr
    rcases hr with h | h | h | h | h <;> subst h <;>
      exact ⟨by decide, by decide, by decide⟩
  refine ⟨⟨rfl, hwfr, by omega⟩, hgetd, hlen, hol, ?_⟩
  have hopt : c7packet.Options = c7buf := rfl
  unfold toBytes
  rw [hopt, fixBytes_self 1236 c7buf hlen, hol]
  rw [if_neg (by omega), if_pos (by omega)]
  refine ⟨_, rfl, ?_⟩
  rw [List.length_take, List.length_append, headerBytes_length, hlen]
  omega

/-- C7 amended: the serialise length rule.  For a packet whose
well-formed options region has its `OptionEnd` byte strictly below
index 1235, `optionsLen` is the index one past the `OptionEnd` byte and
`toBytes` yields `236 + 64 = 300` bytes when it is below 64, else
`236 + optionsLen` bytes; a packet holding the single option
`MessageType = Discover` serialises to exactly 300 bytes.  (The claim
fails at the maximal well-formed region, whose `OptionEnd` byte sits at
index 1235: see the counterexample.) -/
theorem c7_tobytes_length :
    (∀ (p : Packet) (rs : List (Nat × List Nat)), wfOptionsBuf rs p.Options →
      5 + (recsBytes rs).length ≤ 1235 →
      optionsLen p.Options = 5 + (recsBytes rs).length ∧
      ∃ b, toBytes p = some b ∧
        b.length = if optionsLen p.Options < 64 then 236 + 64 else 236 + optionsLen p.Options) ∧
    (∀ p : Packet,
      p.Options = dhcpCookie ++ [53, 1, 1] ++ OptionEnd :: List.replicate 1228 0 →
      ∃ b, toBytes p = some b ∧ b.length = 300) := by
  have main : ∀ (p : Packet) (rs : List (Nat × List Nat)), wfOptionsBuf rs p.Options →
      5 + (recsBytes rs).length ≤ 1235 →
      optionsLen p.Options = 5 + (recsBytes rs).length ∧
      ∃ b, toBytes p = some b ∧
        b.length = if optionsLen p.Options < 64 then 236 + 64 else 236 + optionsLen p.Options := by
    intro p rs hwf hstrict
    have hol := optionsLen_wf rs p.Options hwf hstrict
    obtain ⟨hbuf, hwfr, hbound⟩ := hwf
    have hck : dhcpCookie.length = 4 := rfl
    have hlen : p.Options.length = 1236 := by
      rw [hbuf]
      rw [List.length_append, List.length_append, List.length_cons, List.length_replicate]
      omega
    have hfix : fixBytes 1236 p.Options = p.Options := fixBytes_self _ _ hlen
    have hbslen : (headerBytes p ++ p.Options).length = 1472 := by
      rw [List.length_append, headerBytes_length, hlen]
    refine ⟨hol, ?_⟩
    unfold toBytes
    rw [hfix, hol]
    by_cases hsmall : 5 + (recsBytes rs).length < 64
    · rw [if_pos hsmall, if_pos hsmall]
      refine ⟨_, rfl, ?_⟩
      rw [List.length_take, hbslen]
      omega
    · rw [if_neg hsmall, if_neg hsmall,
        if_pos (show 236 + (5 + (recsBytes rs).length) ≤ 1472 by omega)]
      refine ⟨_, rfl, ?_⟩
      rw [List.length_take, hbslen]
      omega
  refine ⟨main, ?_⟩
  intro p hopts
  have hwf : wfOptionsBuf [(53, [1])] p.Options := by
    refine ⟨?_, ?_, ?_⟩
    · rw [hopts]
      simp [recsBytes, recBytes]
    · intro r hr
      simp at hr
      subst hr
      refine ⟨by decide, by decide, by decide⟩
    · simp [recsBytes, recBytes]
  obtain ⟨hol, b, hb, hblen⟩ := main p [(53, [1])] hwf (by decide)
  refine ⟨b, hb, ?_⟩
  rw [hblen, hol]
  simp [recsBytes, recBytes]

/-- witness for C7 at an all-zero packet carrying the single record
`35 01 01` (MessageType = Discover). -/
theorem c7_witness :
    ∃ b, toBytes
        { Operation := 0, HardwareType := 0, HardwareLength := 0, Hops := 0,
          TransactionID := 0, Seconds := 0, Flags := 0,
          ClientIP := [], YourIP := [], ServerIP := [], GatewayIP := [],
          ClientHardwareAddress := [], ServerHostname := [], BootFilename := [],
          Options := dhcpCookie ++ [53, 1, 1] ++
            OptionEnd :: List.replicate 1228 0 } = some b ∧ b.length = 300 :=
  c7_tobytes_length.2 _ rfl

/-- the read loop collects, in order, the parses of the non-empty
datagrams among the reads it performs, provided no read errors and every
buffer is the full 1472-byte `data` array. -/
theorem discoverLoop_ok (reads : Nat → ReadRes) :
    ∀ (rem t : Nat) (acc : List Packet),
      (∀ i, t ≤ i → i < t + rem → reads i ≠ .rerr) →
      (∀ i n buf, t ≤ i → i < t + rem → reads i = .dgram n buf → buf.length = 1472) →
      discoverLoop reads t rem acc =
        .ok (acc ++ ((List.range' t rem).filterMap (fun i =>
          match reads i with
          | .rerr => none
          | .dgram n buf => if n = 0 then none else parsePacket buf))) := by
  intro rem
  induction rem with
  | zero =>
    intro t acc _ _
    simp [discoverLoop]
  | succ rem ih =>
    intro t acc hok hbuf
    rw [List.range'_succ]
    cases hr : reads t with
    | rerr => exact absurd hr (hok t (le_refl t) (by omega))
    | dgram n buf =>
      by_cases hn : n = 0
      · subst hn
        have hstep : discoverLoop reads t (rem + 1) acc = discoverLoop reads (t + 1) rem acc := by
          simp [discoverLoop, hr]
        rw [hstep, ih (t + 1) acc (fun i h1 h2 => hok i (by omega) (by omega))
          (fun i n b h1 h2 => hbuf i n b (by omega) (by omega))]
        simp [hr]
      · have hlen : buf.length = 1472 := hbuf t n buf (le_refl t) (by omega) hr
        cases hp : parsePacket buf with
        | none =>
          exact absurd hp (by unfold parsePacket; rw [if_neg (by omega)]; simp)
        | some p =>
          have hstep : discoverLoop reads t (rem + 1) acc =
              discoverLoop reads (t + 1) rem (acc ++ [p]) := by
            simp [discoverLoop, hr, hn, hp]
          rw [hstep, ih (t + 1) (acc ++ [p]) (fun i h1 h2 => hok i (by omega) (by omega))
            (fun i n b h1 h2 => hbuf i n b (by omega) (by omega))]
          simp [hr, hn, hp]

/-- C9 counterexample: with `MaxReadRetries = 255` the `uint8` loop bound
`1 + c.MaxReadRetries` wraps to 0, so `Discover` performs no read at all
and returns an empty ok result — not the 256 reads the claim requires
(had any read been performed here, the result would be an error or a
non-empty packet list). -/
theorem c9_counterexample :
    discover 255 (fun _ => .rerr) = .ok [] ∧
    discover 255 (fun _ => .dgram 1472 (List.replicate 1472 0)) = .ok [] := by
  constructor <;> rfl

/-- C9 amended: for `MaxReadRetries ≤ 254` (no `uint8` wrap), `Discover`
reads exactly `1 + MaxReadRetries` times — the result depends only on
those reads — and, when no read errors (each buffer being the whole
1472-byte `data` array), skips the empty datagrams, parses and appends
each non-empty one in order, and returns them all as an ok result; in
particular an all-empty reply sequence yields an empty list, not an
error. -/
theorem c9_discover_amended (retries : Nat) (reads : Nat → ReadRes)
    (hr : retries ≤ 254)
    (hok : ∀ i, i < 1 + retries → reads i ≠ .rerr)
    (hbuf : ∀ i n buf, i < 1 + retries → reads i = .dgram n buf → buf.length = 1472) :
    discover retries reads =
      .ok ((List.range (1 + retries)).filterMap (fun i =>
        match reads i with
        | .rerr => none
        | .dgram n buf => if n = 0 then none else parsePacket buf)) ∧
    ∀ reads' : Nat → ReadRes, (∀ i, i < 1 + retries → reads' i = reads i) →
      discover retries reads' = discover retries reads := by
  have hwrap : (1 + retries % 256) % 256 = 1 + retries := by
    rw [Nat.mod_eq_of_lt (by omega), Nat.mod_eq_of_lt (by omega)]
  have main : discover retries reads =
      .ok ((List.range (1 + retries)).filterMap (fun i =>
        match reads i with
        | .rerr => none
        | .dgram n buf => if n = 0 then none else parsePacket buf)) := by
    unfold discover
    rw [hwrap, List.range_eq_range']
    exact discoverLoop_ok reads (1 + retries) 0 []
      (fun i _ h2 => hok i (by omega))
      (fun i n b _ h2 => hbuf i n b (by omega))
  refine ⟨main, ?_⟩
  intro reads' hagree
  have main' : discover retries reads' =
      .ok ((List.range (1 + retries)).filterMap (fun i =>
        match reads' i with
        | .rerr => none
        | .dgram n buf => if n = 0 then none else parsePacket buf)) := by
    unfold discover
    rw [hwrap, List.range_eq_range']
    exact discoverLoop_ok reads' (1 + retries) 0 []
      (fun i _ h2 => by rw [hagree i (by omega)]; exact hok i (by omega))
      (fun i n b _ h2 hd => hbuf i n b (by omega) (by rw [← hagree i (by omega)]; exact hd))
  rw [main, main']
  congr 1
  apply List.filterMap_congr
  intro i hi
  rw [hagree i (by simpa using List.mem_range.mp hi)]

/-- witness for C9 amended: two reads, both empty datagrams in the full
1472-byte buffer; the result is an empty ok list. -/
theorem c9_witness :
    discover 1 (fun _ => ReadRes.dgram 0 (List.replicate 1472 0)) = .ok [] := by
  have h := c9_discover_amended 1 (fun _ => ReadRes.dgram 0 (List.replicate 1472 0))
    (by omega)
    (fun i _ => by simp)
    (fun i n buf _ hd => by cases hd; simp)
  rw [h.1]
  rfl

/-- C8: the cookie contract.  `SetOptions` on an empty mapping yields
exactly the bytes `63 82 53 63 FF` followed by zeros, and `GetOptions`
on any options buffer whose first four bytes are not the magic cookie
returns the empty mapping without error. -/
theorem c8_cookie_contract :
    setOptions zeroBuf [] =
      some (([0x63, 0x82, 0x53, 0x63, 0xFF] : List Nat) ++ List.replicate 1231 0, none) ∧
    (∀ buf : List Nat, buf.take 4 ≠ dhcpCookie → getOptions buf = some []) := by
  constructor
  · have h := setOptions_ok zeroBuf [] [] (by decide) (by decide) (by decide)
    simpa [dhcpCookie, OptionEnd] using h
  · intro buf h
    simp [getOptions, h]

/-- witness for C8 at the all-zero buffer, whose first four bytes are not
the cookie. -/
theorem c8_witness : zeroBuf.take 4 ≠ dhcpCookie ∧ getOptions zeroBuf = some [] :=
  ⟨by decide, c8_cookie_contract.2 zeroBuf (by decide)⟩

/-- C4 (code bug evidence): an empty `OptionHomeAgentAddrs` value is NOT
silently omitted.  Each empty representation hits `continue` only after
the option-code byte 68 was already written (line 107), so the encoded
region is `cookie 44 FF 00...`, which differs from the encoding of the
mapping without the key, `cookie FF 00...`. -/
theorem c4_homeagent_code_byte_left :
    setOptions zeroBuf [(OptionHomeAgentAddrs, .u32 0)] =
      some ((dhcpCookie ++ [68, 255]) ++ List.replicate 1230 0, none) ∧
    setOptions zeroBuf [(OptionHomeAgentAddrs, .u32s [])] =
      some ((dhcpCookie ++ [68, 255]) ++ List.replicate 1230 0, none) ∧
    setOptions zeroBuf [(OptionHomeAgentAddrs, .ip4s [])] =
      some ((dhcpCookie ++ [68, 255]) ++ List.replicate 1230 0, none) ∧
    setOptions zeroBuf [(OptionHomeAgentAddrs, .bytes [])] =
      some ((dhcpCookie ++ [68, 255]) ++ List.replicate 1230 0, none) ∧
    setOptions zeroBuf [] =
      some ((dhcpCookie ++ [255]) ++ List.replicate 1231 0, none) ∧
    (dhcpCookie ++ [68, 255]) ++ List.replicate 1230 0 ≠
      (dhcpCookie ++ [255]) ++ List.replicate 1231 0 := by
  refine ⟨?_, ?_, ?_, ?_, ?_, ?_⟩
  · simpa using setOptions_ok zeroBuf _ [68] (by decide) (by decide) (by decide)
  · simpa using setOptions_ok zeroBuf _ [68] (by decide) (by decide) (by decide)
  · simpa using setOptions_ok zeroBuf _ [68] (by decide) (by decide) (by decide)
  · simpa using setOptions_ok zeroBuf _ [68] (by decide) (by decide) (by decide)
  · simpa using setOptions_ok zeroBuf _ [] (by decide) (by decide) (by decide)
  · intro h
    have h4 := congrArg (fun l => l.getD 4 0) h
    revert h4
    decide

/-- C5 counterexample: a 256-byte run for `OptionParameterList` is
accepted, but `uint8(len(val))` truncates, so the emitted length byte
(index 5 of the options region) is 0, not 256. -/
theorem c5_counterexample :
    setOptions zeroBuf [(OptionParameterList, .bytes (List.replicate 256 170))] =
      some ((dhcpCookie ++ ((55 :: 0 :: List.replicate 256 170) ++ [OptionEnd]))
          ++ List.replicate 973 0, none) ∧
    ((dhcpCookie ++ ((55 :: 0 :: List.replicate 256 170) ++ [OptionEnd]))
        ++ List.replicate 973 0).getD 5 0 = 0 ∧
    (List.replicate 256 (170 : Nat)).length = 256 := by
  refine ⟨?_, by decide, by decide⟩
  exact setOptions_ok zeroBuf _ (55 :: 0 :: List.replicate 256 170) (by decide) (by decide)
    (by decide)

/-- C5 amended: for a byte run of length at most 255 supplied for
`OptionParameterList`, `SetOptions` succeeds and emits code 55, a length
byte equal to the run's length, then the run's bytes; no length floor of
2 is imposed (the `ClientID` check in that branch is dead code). -/
theorem c5_parameterlist_amended (bs : List Nat) (old : List Nat)
    (hlen : bs.length ≤ 255) (hold : old.length = 1236) :
    setOptions old [(OptionParameterList, .bytes bs)] =
      some ((dhcpCookie ++ ((OptionParameterList :: bs.length :: bs) ++ [OptionEnd]))
          ++ List.replicate (1236 - (4 + (bs.length + 2 + 1))) 0, none) := by
  have hone : encodeOne 55 (.bytes bs) = (bs.length % 256 :: bs, none) := by
    simp [encodeOne, OptionParameterList, OptionRouters, OptionTimeServers, OptionNameServers,
      OptionDomainNameServers, OptionLogServers, OptionCookieServers, OptionLPRServers,
      OptionImpressServers, OptionResourceLocationServers, OptionNISServers, OptionNTPServers,
      OptionNetBIOSNameServers, OptionNetBIOSDistServers, OptionFontServers,
      OptionXDisplayManager, OptionNISPlusServers, OptionSMTPServers, OptionPOPServers,
      OptionNNTPServers, OptionWWWServers, OptionFingerServers, OptionIRCServers,
      OptionStreetTalkServers, OptionSTDAServers, OptionHomeAgentAddrs, OptionPolicyFilters,
      OptionStaticRoutes, OptionSubnetMask, OptionTimeOffset, OptionSwapServer,
      OptionMTUAgingTimeout, OptionBroadcastAddr, OptionRouterSolicitationAddr,
      OptionARPCacheTimeout, OptionTCPKeepaliveInterval, OptionRequestedIPAddr,
      OptionIPAddrLeaseTime, OptionServerID, OptionRenewalTime, OptionRebindingTime,
      OptionMTUPlateauTable, OptionBootFileSize, OptionMaxDatagramAssembly, OptionInterfaceMTU,
      OptionMaxMessageSize, OptionMessageType, OptionOverload, OptionDefaultIPTTL,
      OptionTCPDefaultTTL, OptionNetBIOSNodeType, OptionIPForwardingEnable,
      OptionSourceRoutingEnable, OptionAllSubnetsAreLocal, OptionMaskDiscoveryEnable,
      OptionMaskSupplier, OptionRouterDiscoveryEnable, OptionTrailerEncapsulation,
      OptionEthernetEncapsulation, OptionTCPKeepaliveGarbage, OptionClientID]
  have hmod : bs.length % 256 = bs.length := Nat.mod_eq_of_lt (by omega)
  have h : encodeOpts [((55 : Nat), .bytes bs)] = ((55 : Nat) :: bs.length :: bs, none) := by
    simp [encodeOpts, hone, hmod]
  have hall := setOptions_ok old _ _ h hold (by simp; omega)
  show setOptions old [((55 : Nat), .bytes bs)] =
    some ((dhcpCookie ++ (((55 : Nat) :: bs.length :: bs) ++ [OptionEnd]))
        ++ List.replicate (1236 - (4 + (bs.length + 2 + 1))) 0, none)
  simpa using hall

/-- witness for C5 amended at the one-byte run `[7]`. -/
theorem c5_witness :
    setOptions zeroBuf [(OptionParameterList, .bytes [7])] =
      some ((dhcpCookie ++ ([55, 1, 7] ++ [OptionEnd])) ++ List.replicate 1228 0, none) := by
  simpa using c5_parameterlist_amended [7] zeroBuf (by decide) (by decide)

/-- C10: encoding is not atomic.  `SetOptions` zeroes the whole options
region first (lines 98-100), so on an error return the previous options
content is gone and the region holds the cookie, the partial encoding
written before the failing check, and zeros — the `OptionEnd` write
(line 501) never runs, so every byte after the partial encoding is 0. -/
theorem c10_setOptions_not_atomic (old old' : List Nat) (opts : List (Nat × GoVal))
    (w : List Nat) (e : GoErr) (h : encodeOpts opts = (w, some e))
    (hold : old.length = 1236) (hold' : old'.length = 1236)
    (hfit : 4 + w.length ≤ 1236) :
    setOptions old opts =
      some ((dhcpCookie ++ w) ++ List.replicate (1236 - (4 + w.length)) 0, some e) ∧
    setOptions old' opts = setOptions old opts ∧
    (∀ j, 4 + w.length ≤ j →
      ((dhcpCookie ++ w) ++ List.replicate (1236 - (4 + w.length)) 0).getD j 0 = 0) := by
  refine ⟨setOptions_err old opts w e h hold hfit, ?_, ?_⟩
  · rw [setOptions_err old opts w e h hold hfit, setOptions_err old' opts w e h hold' hfit]
  · intro j hj
    rw [List.getD_append_right _ _ _ _ (by simp [dhcpCookie]; omega)]
    exact getD_replicate_zero _ _

/-- witness for C10: `{Overload ↦ 0}` fails the value check after the code
byte 52 and the length byte 1 were written; the buffer is independent of
the previous contents (all-zero vs all-7). -/
theorem c10_witness :
    setOptions zeroBuf [(OptionOverload, .u8 0)] =
      some ((dhcpCookie ++ [52, 1]) ++ List.replicate 1230 0, some .invalidValue) ∧
    setOptions (List.replicate 1236 7) [(OptionOverload, .u8 0)] =
      setOptions zeroBuf [(OptionOverload, .u8 0)] ∧
    (∀ j, 4 + 2 ≤ j →
      ((dhcpCookie ++ [52, 1]) ++ List.replicate (1236 - (4 + 2)) 0).getD j 0 = 0) := by
  have h := c10_setOptions_not_atomic zeroBuf (List.replicate 1236 7)
    [(OptionOverload, .u8 0)] [52, 1] .invalidValue (by decide) (by decide) (by decide)
    (by decide)
  refine ⟨by simpa using h.1, by simpa using h.2.1.symm, by simpa using h.2.2⟩

/-- C3 (code bug evidence): `GetOptions` does not skip an `OptionPad`
byte between records — it consumes it as an option code and the byte
after it as a length, so the mapping differs from the one for the
buffer with the pad byte removed (which decodes to `{53 ↦ [1]}`). -/
theorem c3_pad_not_skipped :
    getOptions (dhcpCookie ++ [0, 53, 1, 1, 255] ++ List.replicate 1227 0) =
      some [(0, [1, 1, 255] ++ List.replicate 50 0)] ∧
    getOptions (dhcpCookie ++ [53, 1, 1, 255] ++ List.replicate 1228 0) =
      some [(53, [1])] ∧
    ([(0, [1, 1, 255] ++ List.replicate 50 0)] : List (Nat × List Nat)) ≠ [(53, [1])] := by
  refine ⟨by decide, by decide, by decide⟩

/-- C2 (code bug evidence): `GetOptions` is not total on truncated
records.  `c2buf` begins with the magic cookie and its record at index
1032 claims 255 value bytes with only 202 remaining; the value slice
`p.Options[1034:1289]` is out of range for the 1236-byte array, a Go
runtime panic, modelled as `none`. -/
theorem c2_truncated_record_panics :
    c2buf.take 4 = dhcpCookie ∧ c2buf.length = 1236 ∧ getOptions c2buf = none := by
  refine ⟨by decide, by decide, by decide⟩

end Dhcp

/-! Sanity examples. -/

example : Dhcp.setOptions Dhcp.zeroBuf [] =
    some ((Dhcp.dhcpCookie ++ ([] ++ [Dhcp.OptionEnd])) ++ List.replicate 1231 0, none) :=
  Dhcp.setOptions_ok _ _ [] (by decide) (by decide) (by decide)

example : Dhcp.setOptions Dhcp.zeroBuf [(Dhcp.OptionMessageType, .u8 1)] =
    some ((Dhcp.dhcpCookie ++ ([53, 1, 1] ++ [Dhcp.OptionEnd])) ++ List.replicate 1228 0, none) :=
  Dhcp.setOptions_ok _ _ [53, 1, 1] (by decide) (by decide) (by decide)

example : Dhcp.setOptions Dhcp.zeroBuf [(Dhcp.OptionHomeAgentAddrs, .u32 0)] =
    some ((Dhcp.dhcpCookie ++ ([68] ++ [Dhcp.OptionEnd])) ++ List.replicate 1230 0, none) :=
  Dhcp.setOptions_ok _ _ [68] (by decide) (by decide) (by decide)

example : (Dhcp.encodeOne Dhcp.OptionOverload (.u8 0)) = ([1], some .invalidValue) := by decide

example : Dhcp.getOptions Dhcp.zeroBuf = some [] := by decide

example : Dhcp.optionsLen (Dhcp.dhcpCookie ++ [53, 1, 1, 255] ++ List.replicate 1228 0) = 8 := by
  decide

example : Dhcp.getOptions (Dhcp.dhcpCookie ++ [53, 1, 1, 255] ++ List.replicate 1228 0) =
    some [(53, [1])] := by decide
